import Mathlib

/-!
Verification of the TCP client's framing, reassembly, send and script-reading
logic (src/tcp_client.c), as a shallow embedding over lists of bytes.

Modelling conventions, fixed once for the whole file:
* a byte is a `Nat` (0..255 in practice); C strings are NUL-free byte lists,
  so `strlen` of an argument string is its length;
* freshly `malloc`ed / `realloc`ed memory is modelled as zero bytes (the C
  code reads such bytes through `strchr`/`strncpy`, whose observable behaviour
  in this model matches a zero-filled allocation);
* `recv` is driven by a schedule: a list whose entries are `none` (the call
  reports an error, `-1`) or `some chunk` (the call delivers `chunk`, clamped
  to the requested room); an empty delivery or an exhausted schedule is a
  zero-byte read, i.e. the peer closed the connection;
* `send` is driven by a schedule of `none` (error) / `some k` (the call
  accepts `min k requested` bytes); once the schedule is exhausted every
  further call accepts everything requested;
* `exit(EXIT_FAILURE)` is modelled as an explicit `exited 1` outcome, distinct
  from returning a value to the caller.
-/

set_option maxRecDepth 8000

/-- isdigit(b) for a byte. -/
def isDigitByte (b : Nat) : Bool := decide (48 ≤ b ∧ b ≤ 57)

/-- Whitespace in the sense of scanf's `%s` / whitespace directives:
space, \t, \n, \v, \f, \r. -/
def isWhite (b : Nat) : Bool :=
  b == 32 || b == 9 || b == 10 || b == 11 || b == 12 || b == 13

/-- Content of a C string stored in a byte region: the bytes before the first
NUL.  Used where the code reads a buffer through string functions. -/
def cString (bs : List Nat) : List Nat := bs.takeWhile (fun b => b ≠ 0)

/-- strchr(buffer, ' '): index of the first space byte, scanning up to the
first NUL; `none` when a NUL (or the end of the modelled region) comes first. -/
def strchrSpace : List Nat → Option Nat
  | [] => none
  | b :: bs =>
    if b = 32 then some 0
    else if b = 0 then none
    else (strchrSpace bs).map (· + 1)

/-- atoi on the digit prefix of a byte string (the code only calls it on
strings whose first byte is a digit; atoi ignores everything after the
leading digit run). -/
def atoiNat (s : List Nat) : Nat :=
  (s.takeWhile isDigitByte).foldl (fun acc d => 10 * acc + (d - 48)) 0

/-- Decimal ASCII digits of `n`, as produced by `sprintf("%d", n)`
(fuelled helper; fuel `n+1` always suffices since `n / 10 < n` for `n ≥ 10`). -/
def numBytesF : Nat → Nat → List Nat
  | 0, _ => []
  | f + 1, n => if n < 10 then [48 + n] else numBytesF f (n / 10) ++ [48 + n % 10]

/-- Decimal ASCII digits of `n`. -/
def numBytes (n : Nat) : List Nat := numBytesF (n + 1) n

/-- The request built by tcp_client_send_request (line 201):
sprintf(request, "%s %d %s", action, message_length, message). -/
def reqOf (action message : List Nat) : List Nat :=
  action ++ 32 :: numBytes message.length ++ 32 :: message

/-- The response frame carrying payload `p`: `"<decimal length> <payload>"`,
the wire format the response reassembler parses. -/
def frameOf (p : List Nat) : List Nat :=
  numBytes p.length ++ 32 :: p

/-- Outcome of tcp_client_send_request: a value returned to the caller, or a
process exit (the code calls exit(EXIT_FAILURE) on a send error, line 210). -/
inductive SendResult where
  | returned (v : Nat)
  | exited (code : Nat)
deriving DecidableEq

/-- The send loop of tcp_client_send_request (lines 205-213).  Returns the
concatenation of all bytes actually handed to `send`, and the outcome.
Faithful detail: each call passes `request` itself as the source pointer
(not `request + total_bytes_sent`), so every call transmits a prefix of the
request taken from its start. -/
def sendLoop (request : List Nat) : List (Option Nat) → Nat → List Nat × SendResult
  | sched, total =>
    if total < request.length then
      match sched with
      | [] =>
          -- schedule exhausted: the remaining call accepts everything requested
          (request.take (request.length - total), SendResult.returned 0)
      | none :: _ => ([], SendResult.exited 1)
      | some k :: rest =>
          let requested := request.length - total
          let sent := min k requested
          let out := sendLoop request rest (total + sent)
          (request.take sent ++ out.1, out.2)
    else ([], SendResult.returned 0)

/-- tcp_client_send_request (lines 192-216): builds the request frame and
loops on send until all bytes are counted as sent or a send call errors. -/
def tcp_client_send_request (action message : List Nat)
    (sched : List (Option Nat)) : List Nat × SendResult :=
  sendLoop (reqOf action message) sched 0

/-- State of the receive loop of tcp_client_receive_response:
the reassembly buffer (always `bufSize` bytes long), its capacity,
`total_bytes_received` (an `int` in C, so modelled as `Int`: the inner loop
can drive it negative), the messages passed to the handler so far, and the
`all_done` flag. -/
structure RecvState where
  buffer : List Nat
  bufSize : Nat
  total : Int
  outputs : List (List Nat)
  allDone : Bool
deriving DecidableEq

/-- Outcome of tcp_client_receive_response: normal return or process exit. -/
inductive RecvResult where
  | success
  | exited (code : Nat)
deriving DecidableEq

/-- Writing `data` into the buffer at byte offset `off`
(recv(sockfd, buffer + total, ...)).  A negative offset is undefined
behaviour in C; the model leaves the buffer unchanged there, and no theorem
below depends on that case. -/
def writeAt (buf : List Nat) (off : Int) (data : List Nat) : List Nat :=
  if off < 0 then buf
  else buf.take off.toNat ++ data ++ buf.drop (off.toNat + data.length)

/-- memmove(buffer, buffer + k, buffer_size - k) (line 295): the first
`size - k` bytes become the old bytes from offset `k`, the last `k` bytes
keep their old values. -/
def shiftBuffer (buf : List Nat) (k : Nat) : List Nat :=
  buf.drop k ++ buf.drop (buf.length - k)

/-- The inner decode loop of tcp_client_receive_response (lines 263-298),
with explicit fuel.  One fuel unit per iteration; the caller passes
`total.toNat + 2`, which always suffices: every iteration that re-enters the
loop consumes at least 2 bytes of `total` (a length prefix of at least one
digit, the space, and the payload), and every other path leaves the loop.

Branches, in source order:
* no space before a NUL, or first byte not a digit: reset
  `total_bytes_received` to 0 and break (lines 266-269);
* declared length exceeds `buffer_size - prefix_len - 1`: double the
  capacity, realloc (new region zero-modelled), break (lines 276-280);
* `total_bytes_received < message_length`: break (lines 282-284);
* otherwise extract the message (strncpy of `message_length` bytes after the
  space, NUL-terminated: the handler observes the bytes before the first
  NUL), invoke the handler, and either finish (all_done) or consume
  `prefix_len + message_length + 1` bytes and loop (lines 286-297). -/
def innerLoop (h : List Nat → Bool) : Nat → RecvState → RecvState
  | 0, st => st
  | fuel + 1, st =>
    match strchrSpace st.buffer with
    | none => { st with total := 0 }
    | some i =>
      if isDigitByte (st.buffer.headD 0) then
        let len := atoiNat (st.buffer.take i)
        if (len : Int) > (st.bufSize : Int) - (i : Int) - 1 then
          { st with bufSize := 2 * st.bufSize
                    buffer := st.buffer ++ List.replicate st.bufSize 0 }
        else if st.total < (len : Int) then st
        else
          let message := cString ((st.buffer.drop (i + 1)).take len)
          let st1 := { st with outputs := st.outputs ++ [message] }
          if h message then { st1 with allDone := true }
          else
            innerLoop h fuel
              { st1 with
                  buffer := shiftBuffer st1.buffer (i + len + 1)
                  total := st1.total - ((i : Int) + (len : Int) + 1) }
      else { st with total := 0 }

/-- The outer receive loop of tcp_client_receive_response (lines 241-299):
check all_done, recv one scheduled chunk (clamped to the remaining room),
treat an error as exit(EXIT_FAILURE), a zero-byte delivery as connection
closed (return success), otherwise run the inner decode loop and continue. -/
def outerLoop (h : List Nat → Bool) :
    List (Option (List Nat)) → RecvState → RecvState × RecvResult
  | reads, st =>
    if st.allDone then (st, RecvResult.success)
    else
      match reads with
      | [] => (st, RecvResult.success)
      | none :: _ => (st, RecvResult.exited 1)
      | some chunk :: rest =>
          let room : Int := (st.bufSize : Int) - st.total
          let delivered := chunk.take room.toNat
          if delivered.length = 0 then (st, RecvResult.success)
          else
            let st1 : RecvState :=
              { st with buffer := writeAt st.buffer st.total delivered
                        total := st.total + delivered.length }
            let st2 := innerLoop h (st1.total.toNat + 2) st1
            outerLoop h rest st2

/-- Initial state: malloc(DEFAULT_BUFFER_SIZE)-backed buffer of 1024 bytes
(zero-modelled), no valid bytes, nothing delivered. -/
def recvInit : RecvState :=
  { buffer := List.replicate 1024 0, bufSize := 1024, total := 0
    outputs := [], allDone := false }

/-- tcp_client_receive_response (lines 230-301). -/
def tcp_client_receive_response (h : List Nat → Bool)
    (reads : List (Option (List Nat))) : RecvState × RecvResult :=
  outerLoop h reads recvInit

/-- A handler that never signals completion (returns false on every
message). -/
def hFalse : List Nat → Bool := fun _ => false

/-- Decoding a byte sequence through the real reassembler: the messages the
handler receives when the whole sequence arrives in one read and the handler
never stops the loop. -/
def decode (bs : List Nat) : List (List Nat) :=
  (tcp_client_receive_response hFalse [some bs]).1.outputs

/-- The five action literals of is_valid_action (line 360), as byte lists:
"uppercase", "lowercase", "reverse", "shuffle", "random". -/
def upB : List Nat := [117, 112, 112, 101, 114, 99, 97, 115, 101]

/-- "lowercase". -/
def lowB : List Nat := [108, 111, 119, 101, 114, 99, 97, 115, 101]

/-- "reverse". -/
def revB : List Nat := [114, 101, 118, 101, 114, 115, 101]

/-- "shuffle". -/
def shufB : List Nat := [115, 104, 117, 102, 102, 108, 101]

/-- "random". -/
def randB : List Nat := [114, 97, 110, 100, 111, 109]

/-- is_valid_action (lines 358-368): strcmp of the argument against each of
the five action literals in order. -/
def is_valid_action (a : List Nat) : Bool :=
  a == upB || a == lowB || a == revB || a == shufB || a == randB

/-- sscanf's `%s` conversion applied to a line: skip leading whitespace, read
the maximal non-whitespace run (line 401). -/
def scanToken (line : List Nat) : List Nat :=
  (line.dropWhile isWhite).takeWhile (fun b => !isWhite b)

/-- sscanf's ` %[^\n]` after `%s`: skip the whitespace run following the
token, then read everything up to (not including) the newline.  When nothing
is left before the newline the conversion fails and the (zero-modelled)
malloc'd buffer is read back as the empty string (line 400-401). -/
def scanMessage (line : List Nat) : List Nat :=
  (((line.dropWhile isWhite).dropWhile (fun b => !isWhite b)).dropWhile
      isWhite).takeWhile (fun b => b ≠ 10)

/-- tcp_client_get_line (lines 383-411) on a list of getline results (each
line's bytes, trailing newline included).  Returns the (action, message)
pair of the first accepted line, `none` when getline hits end of input
(returns -1) first.  Skips: the line "\n", lines whose first byte is a
space, lines with no space before a NUL, lines whose scanned action token is
not a valid action. -/
def tcp_client_get_line : List (List Nat) → Option (List Nat × List Nat)
  | [] => none
  | line :: rest =>
    if line == [10] || line.headD 0 == 32 then tcp_client_get_line rest
    else
      match strchrSpace line with
      | none => tcp_client_get_line rest
      | some _ =>
        let action := scanToken line
        let message := scanMessage line
        if is_valid_action action then some (action, message)
        else tcp_client_get_line rest

/-- Claim-side notion for C7, following the spec's words: the valid region
(the first `total` bytes of the buffer) contains no space character. -/
def validRegionHasNoSpace (st : RecvState) : Prop :=
  ∀ j, j < st.total.toNat → st.buffer.getD j 0 ≠ 32

instance (st : RecvState) : Decidable (validRegionHasNoSpace st) :=
  inferInstanceAs (Decidable (∀ j, j < st.total.toNat → st.buffer.getD j 0 ≠ 32))

/-- Spec-side reader for the amended C9, written from the amended claim's
words: skip empty lines, space-led lines, lines without a space, and lines
whose first whitespace-delimited token is not one of the five actions;
otherwise return that token together with the remainder that follows the
whitespace run after the token, up to but excluding the newline. -/
def get_line_spec : List (List Nat) → Option (List Nat × List Nat)
  | [] => none
  | line :: rest =>
    if line = [10] ∨ line.headD 0 = 32 ∨ ¬ 32 ∈ line then get_line_spec rest
    else
      if (line.dropWhile isWhite).takeWhile (fun b => !isWhite b)
          ∈ [upB, lowB, revB, shufB, randB] then
        some ((line.dropWhile isWhite).takeWhile (fun b => !isWhite b),
          (((line.dropWhile isWhite).dropWhile (fun b => !isWhite b)).dropWhile
              isWhite).takeWhile (fun b => b ≠ 10))
      else get_line_spec rest

/-! ## Helper lemmas -/

theorem takeWhile_all {α : Type} {p : α → Bool} :
    ∀ l : List α, (∀ b ∈ l, p b = true) → l.takeWhile p = l := by
  intro l
  induction l with
  | nil => intro _; rfl
  | cons a l ih =>
    intro hall
    have hpa : p a = true := hall a (by simp)
    have hrest : List.takeWhile p l = l := ih (fun b hb => hall b (by simp [hb]))
    simp [List.takeWhile_cons, hpa, hrest]

theorem cString_of_ne_zero {l : List Nat} (h : ∀ b ∈ l, b ≠ 0) : cString l = l := by
  refine takeWhile_all l ?_
  intro b hb
  simpa using h b hb

theorem strchrSpace_append {d r : List Nat}
    (hd : ∀ b ∈ d, b ≠ 32 ∧ b ≠ 0) :
    strchrSpace (d ++ 32 :: r) = some d.length := by
  induction d with
  | nil => simp [strchrSpace]
  | cons b d ih =>
    have hb := hd b (by simp)
    rw [List.cons_append, strchrSpace, if_neg hb.1, if_neg hb.2,
      ih (fun x hx => hd x (by simp [hx]))]
    simp

theorem strchrSpace_replicate_zero {n : Nat} (h : 0 < n) :
    strchrSpace (List.replicate n 0) = none := by
  cases n with
  | zero => omega
  | succ m => rw [List.replicate_succ, strchrSpace]; simp

theorem numBytesF_foldl :
    ∀ f n a, n < f →
      (numBytesF f n).foldl (fun x d => 10 * x + (d - 48)) a
        = a * 10 ^ (numBytesF f n).length + n := by
  intro f
  induction f with
  | zero => intro n a h; exact absurd h (Nat.not_lt_zero n)
  | succ f ih =>
    intro n a h
    by_cases h10 : n < 10
    · simp only [numBytesF, if_pos h10, List.foldl_cons, List.foldl_nil,
        List.length_cons, List.length_nil]
      have h1 : 48 + n - 48 = n := by omega
      have h2 : (10 : Nat) ^ (0 + 1) = 10 := by norm_num
      rw [h1, h2]
      omega
    · have hdiv : n / 10 < f := by
        have h1 : n / 10 < n := Nat.div_lt_self (by omega) (by omega)
        omega
      simp only [numBytesF, if_neg h10, List.foldl_append, List.foldl_cons,
        List.foldl_nil, List.length_append, List.length_cons, List.length_nil]
      rw [ih (n / 10) a hdiv]
      have hmod : 48 + n % 10 - 48 = n % 10 := by omega
      have hpow : (10 : Nat) ^ ((numBytesF f (n / 10)).length + (0 + 1))
          = 10 ^ (numBytesF f (n / 10)).length * 10 := by
        rw [pow_add]; norm_num
      rw [hmod, hpow]
      have hdm : 10 * (n / 10) + n % 10 = n := Nat.div_add_mod n 10
      nlinarith [hdm]

theorem numBytesF_digits :
    ∀ f n, n < f → ∀ b ∈ numBytesF f n, 48 ≤ b ∧ b ≤ 57 := by
  intro f
  induction f with
  | zero => intro n h; exact absurd h (Nat.not_lt_zero n)
  | succ f ih =>
    intro n h b hb
    by_cases h10 : n < 10
    · simp only [numBytesF, if_pos h10, List.mem_singleton] at hb
      omega
    · have hdiv : n / 10 < f := by
        have h1 : n / 10 < n := Nat.div_lt_self (by omega) (by omega)
        omega
      simp only [numBytesF, if_neg h10, List.mem_append, List.mem_singleton] at hb
      rcases hb with hb | hb
      · exact ih (n / 10) hdiv b hb
      · have := Nat.mod_lt n (show 0 < 10 by omega)
        omega

theorem numBytes_digits {n : Nat} : ∀ b ∈ numBytes n, 48 ≤ b ∧ b ≤ 57 :=
  numBytesF_digits (n + 1) n (Nat.lt_succ_self n)

theorem numBytes_ne_nil {n : Nat} : numBytes n ≠ [] := by
  unfold numBytes
  by_cases h10 : n < 10 <;> simp [numBytesF, h10]

theorem atoiNat_numBytes (n : Nat) : atoiNat (numBytes n) = n := by
  unfold atoiNat
  rw [takeWhile_all (numBytes n) ?_]
  · have := numBytesF_foldl (n + 1) n 0 (Nat.lt_succ_self n)
    unfold numBytes
    omega
  · intro b hb
    have := numBytes_digits b hb
    simp [isDigitByte]
    omega

theorem inner_one_frame (h : List Nat → Bool) (d p : List Nat) (acc : List (List Nat)) (f : Nat)
    (hdig : ∀ b ∈ d, 48 ≤ b ∧ b ≤ 57) (hdne : d ≠ [])
    (hatoi : atoiNat d = p.length)
    (hp0 : ∀ b ∈ p, b ≠ 0)
    (hlen : d.length + 1 + p.length ≤ 512)
    (hh : h p = false) :
    innerLoop h (f + 2)
      { buffer := (d ++ 32 :: p) ++ List.replicate (1024 - (d.length + 1 + p.length)) 0
        bufSize := 1024
        total := ((d.length + 1 + p.length : Nat) : Int)
        outputs := acc
        allDone := false }
      = { buffer := List.replicate 1024 0, bufSize := 1024, total := 0
          outputs := acc ++ [p], allDone := false } := by
  obtain ⟨b0, d', rfl⟩ := List.exists_cons_of_ne_nil hdne
  have hc : (b0 :: d').length = d'.length + 1 := rfl
  set dl := (b0 :: d').length with hdl
  set L := dl + 1 + p.length with hL
  set Z : List Nat := List.replicate (1024 - L) 0 with hZ
  have hd32 : ∀ b ∈ b0 :: d', b ≠ 32 ∧ b ≠ 0 := by
    intro b hb
    have := hdig b hb
    omega
  have hshape : ((b0 :: d') ++ 32 :: p) ++ Z = (b0 :: d') ++ 32 :: (p ++ Z) := by
    simp
  have hstr : strchrSpace (((b0 :: d') ++ 32 :: p) ++ Z) = some dl := by
    rw [hshape]
    exact strchrSpace_append hd32
  have hhead : (((b0 :: d') ++ 32 :: p) ++ Z).headD 0 = b0 := rfl
  have hdig0 : isDigitByte b0 = true := by
    have := hdig b0 (by simp)
    simp [isDigitByte]
    omega
  have htake : (((b0 :: d') ++ 32 :: p) ++ Z).take dl = b0 :: d' := by
    rw [hshape]
    exact List.take_left' rfl
  have hdrop : (((b0 :: d') ++ 32 :: p) ++ Z).drop (dl + 1) = p ++ Z := by
    have : ((b0 :: d') ++ 32 :: p) ++ Z = ((b0 :: d') ++ [32]) ++ (p ++ Z) := by simp
    rw [this]
    exact List.drop_left' (by simp [hdl])
  have htakep : (p ++ Z).take (p.length) = p := List.take_left p Z
  show innerLoop h ((f + 1) + 1) _ = _
  rw [innerLoop]
  simp only [hstr, hhead, hdig0, if_true, htake, hatoi, hdrop, htakep]
  rw [if_neg (by push_cast; omega)]
  rw [if_neg (by omega)]
  rw [cString_of_ne_zero hp0, hh]
  simp only [Bool.false_eq_true, if_false]
  have hblen : (((b0 :: d') ++ 32 :: p) ++ Z).length = 1024 := by
    simp [hZ]
    omega
  have hshift : shiftBuffer (((b0 :: d') ++ 32 :: p) ++ Z) (dl + p.length + 1)
      = List.replicate 1024 0 := by
    unfold shiftBuffer
    rw [hblen]
    have hk : dl + p.length + 1 = L := by omega
    rw [hk]
    have hdropL : (((b0 :: d') ++ 32 :: p) ++ Z).drop L = Z :=
      List.drop_left' (by simp [hL, hdl]; omega)
    have hdrop2 : (((b0 :: d') ++ 32 :: p) ++ Z).drop (1024 - L)
        = List.replicate L 0 := by
      have h1 : (1024 : Nat) - L = L + (1024 - 2 * L) := by omega
      rw [h1, ← List.drop_drop, hdropL, hZ, List.drop_replicate]
      congr 1
      omega
    rw [hdropL, hdrop2, hZ, ← List.replicate_add]
    congr 1
    omega
  have htot : ((L : Nat) : Int) - ((dl : Int) + (p.length : Int) + 1) = 0 := by
    omega
  rw [hshift]
  rw [show (((L : Nat) : Int) - ((dl : Int) + (p.length : Int) + 1)) = 0 from htot]
  rw [innerLoop]
  rw [strchrSpace_replicate_zero (by omega)]

theorem writeAt_zeros (data : List Nat) :
    writeAt (List.replicate 1024 0) 0 data
      = data ++ List.replicate (1024 - data.length) 0 := by
  unfold writeAt
  rw [if_neg (by norm_num)]
  rw [show ((0 : Int).toNat) = 0 from rfl]
  rw [List.take_zero, List.nil_append, Nat.zero_add, List.drop_replicate]

theorem outer_step (h : List Nat → Bool) (p : List Nat) (acc : List (List Nat))
    (reads : List (Option (List Nat)))
    (hp0 : ∀ b ∈ p, b ≠ 0) (hlen : (frameOf p).length ≤ 512) (hh : h p = false) :
    outerLoop h (some (frameOf p) :: reads) { recvInit with outputs := acc }
      = outerLoop h reads { recvInit with outputs := acc ++ [p] } := by
  have hfl : (frameOf p).length = (numBytes p.length).length + 1 + p.length := by
    simp [frameOf]
    omega
  have htake1024 : (frameOf p).take 1024 = frameOf p :=
    List.take_of_length_le (by omega)
  have hne : ¬ (frameOf p).length = 0 := by
    have h1 : 0 < (numBytes p.length).length :=
      List.length_pos.mpr (numBytes_ne_nil (n := p.length))
    omega
  rw [outerLoop]
  simp only [recvInit, Bool.false_eq_true, if_false, sub_zero, zero_add,
    Int.toNat_ofNat, htake1024, hne, writeAt_zeros, Int.toNat_natCast]
  rw [hfl, show frameOf p = numBytes p.length ++ 32 :: p from rfl]
  rw [inner_one_frame h (numBytes p.length) p acc ((numBytes p.length).length + 1 + p.length)
    numBytes_digits numBytes_ne_nil (atoiNat_numBytes p.length) hp0 (by omega) hh]

theorem outerLoop_nil (h : List Nat → Bool) (st : RecvState) :
    outerLoop h [] st = (st, RecvResult.success) := by
  rw [outerLoop.eq_def]
  cases hv : st.allDone <;> simp [hv]

theorem receive_frames (h : List Nat → Bool) :
    ∀ (ps : List (List Nat)) (acc : List (List Nat)),
      (∀ p ∈ ps, (∀ b ∈ p, b ≠ 0) ∧ (frameOf p).length ≤ 512 ∧ h p = false) →
      outerLoop h (ps.map (fun p => some (frameOf p))) { recvInit with outputs := acc }
        = ({ recvInit with outputs := acc ++ ps }, RecvResult.success) := by
  intro ps
  induction ps with
  | nil =>
    intro acc _
    rw [List.map_nil, outerLoop_nil]
    simp
  | cons p ps ih =>
    intro acc hall
    have hp := hall p (by simp)
    rw [List.map_cons, outer_step h p acc _ hp.1 hp.2.1 hp.2.2,
      ih (acc ++ [p]) (fun q hq => hall q (by simp [hq]))]
    simp

theorem sendLoop_outcomes (request : List Nat) :
    ∀ (sched : List (Option Nat)) (total : Nat),
      ((sendLoop request sched total).2 = SendResult.returned 0 ∨
        (sendLoop request sched total).2 = SendResult.exited 1) ∧
      ((∀ e ∈ sched, e ≠ none) →
        (sendLoop request sched total).2 = SendResult.returned 0) := by
  intro sched
  induction sched with
  | nil =>
    intro total
    constructor
    · rw [sendLoop]
      by_cases hlt : total < request.length <;> simp [hlt]
    · intro _
      rw [sendLoop]
      by_cases hlt : total < request.length <;> simp [hlt]
  | cons e rest ih =>
    intro total
    cases e with
    | none =>
      constructor
      · rw [sendLoop]
        by_cases hlt : total < request.length <;> simp [hlt]
      · intro hnone
        exact absurd rfl (hnone none (by simp))
    | some k =>
      constructor
      · rw [sendLoop]
        by_cases hlt : total < request.length <;> simp [hlt]
        · exact (ih _).1
      · intro hnone
        rw [sendLoop]
        by_cases hlt : total < request.length <;> simp [hlt]
        · exact (ih _).2 (fun x hx => hnone x (by simp [hx]))

theorem innerLoop_bufSize_mono (h : List Nat → Bool) :
    ∀ (fuel : Nat) (st : RecvState), st.bufSize ≤ (innerLoop h fuel st).bufSize := by
  intro fuel
  induction fuel with
  | zero => intro st; rw [innerLoop]
  | succ f ih =>
    intro st
    have haux : ∀ st' : RecvState, st'.bufSize = st.bufSize →
        st.bufSize ≤ (innerLoop h f st').bufSize := by
      intro st' he
      rw [← he]
      exact ih st'
    rw [innerLoop]
    cases hstr : strchrSpace st.buffer with
    | none => simp
    | some i =>
      simp only [← List.headD_eq_head?]
      by_cases hdg : isDigitByte (st.buffer.headD 0) = true
      · rw [if_pos hdg]
        by_cases hbig : (st.bufSize : Int) - (i : Int) - 1 < (atoiNat (st.buffer.take i) : Int)
        · rw [if_pos hbig]
          simp
          omega
        · rw [if_neg hbig]
          by_cases hlt : st.total < (atoiNat (st.buffer.take i) : Int)
          · rw [if_pos hlt]
          · rw [if_neg hlt]
            by_cases hdone :
                h (cString ((st.buffer.drop (i + 1)).take (atoiNat (st.buffer.take i)))) = true
            · simp [hdone]
            · simp only [hdone, Bool.false_eq_true, if_false]
              exact haux _ rfl
      · rw [if_neg hdg]

theorem outerLoop_bufSize_mono (h : List Nat → Bool) :
    ∀ (reads : List (Option (List Nat))) (st : RecvState),
      st.bufSize ≤ ((outerLoop h reads st).1).bufSize := by
  intro reads
  induction reads with
  | nil =>
    intro st
    rw [outerLoop_nil]
  | cons r rest ih =>
    intro st
    have haux : ∀ (fl : Nat) (st' : RecvState), st'.bufSize = st.bufSize →
        st.bufSize ≤ ((outerLoop h rest (innerLoop h fl st')).1).bufSize := by
      intro fl st' he
      calc st.bufSize = st'.bufSize := he.symm
        _ ≤ (innerLoop h fl st').bufSize := innerLoop_bufSize_mono h _ _
        _ ≤ _ := ih _
    rw [outerLoop.eq_def]
    by_cases hd : st.allDone = true
    · simp [hd]
    · simp only [hd, Bool.false_eq_true, if_false]
      cases r with
      | none => simp
      | some chunk =>
        simp only
        by_cases hz : (chunk.take ((st.bufSize : Int) - st.total).toNat).length = 0
        · rw [if_pos hz]
        · rw [if_neg hz]
          exact haux _ _ rfl

theorem innerLoop_doubles (h : List Nat → Bool) (fuel : Nat) (st : RecvState) (i : Nat)
    (hstr : strchrSpace st.buffer = some i)
    (hdg : isDigitByte (st.buffer.headD 0) = true)
    (hbig : (atoiNat (st.buffer.take i) : Int) > (st.bufSize : Int) - (i : Int) - 1) :
    innerLoop h (fuel + 1) st
      = { st with bufSize := 2 * st.bufSize
                  buffer := st.buffer ++ List.replicate st.bufSize 0 } := by
  rw [innerLoop, hstr]
  simp only [← List.headD_eq_head?]
  rw [if_pos hdg, if_pos hbig]

theorem innerLoop_reset (h : List Nat → Bool) (fuel : Nat) (st : RecvState)
    (hcond : strchrSpace st.buffer = none ∨ isDigitByte (st.buffer.headD 0) = false) :
    innerLoop h (fuel + 1) st = { st with total := 0 } := by
  rcases hcond with hc | hc
  · rw [innerLoop, hc]
  · rw [innerLoop]
    cases hstr : strchrSpace st.buffer with
    | none => rfl
    | some i =>
      have hc' : isDigitByte (st.buffer.head?.getD 0) = false := by
        rw [← List.headD_eq_head?]
        exact hc
      simp [hc']

theorem is_valid_action_iff (a : List Nat) :
    is_valid_action a = true ↔
      (a = upB ∨ a = lowB ∨ a = revB ∨ a = shufB ∨ a = randB) := by
  simp [is_valid_action]
  tauto

theorem strchrSpace_none_iff {l : List Nat} (h0 : ∀ b ∈ l, b ≠ 0) :
    strchrSpace l = none ↔ ¬ 32 ∈ l := by
  induction l with
  | nil => simp [strchrSpace]
  | cons b bs ih =>
    rw [strchrSpace]
    by_cases hb32 : b = 32
    · simp [hb32]
    · have hb0 : b ≠ 0 := h0 b (by simp)
      rw [if_neg hb32, if_neg hb0]
      simp [hb32, ih (fun x hx => h0 x (by simp [hx]))]
      exact fun _ he => hb32 he.symm

theorem get_line_eq_spec :
    ∀ lines : List (List Nat), (∀ l ∈ lines, ∀ b ∈ l, b ≠ 0) →
      tcp_client_get_line lines = get_line_spec lines := by
  intro lines
  induction lines with
  | nil => intro _; rfl
  | cons line rest ih =>
    intro h0
    have hrest := ih (fun l hl => h0 l (by simp [hl]))
    have hline : ∀ b ∈ line, b ≠ 0 := h0 line (by simp)
    rw [tcp_client_get_line, get_line_spec]
    by_cases h1 : line = [10]
    · simp [h1, hrest]
    · by_cases h2 : line.headD 0 = 32
      · have h2g : line.head?.getD 0 = 32 := by
          rw [← List.headD_eq_head?]
          exact h2
        simp [h1, h2g, hrest]
      · have h2g : ¬ line.head?.getD 0 = 32 := by
          rw [← List.headD_eq_head?]
          exact h2
        have hcond : (line == [10] || line.headD 0 == 32) = false := by
          simp [h1, h2g]
        rw [hcond]
        simp only [Bool.false_eq_true, if_false]
        by_cases h3 : (32 : Nat) ∈ line
        · have hsome : strchrSpace line ≠ none :=
            fun hn => ((strchrSpace_none_iff hline).mp hn) h3
          obtain ⟨j, hj⟩ := Option.ne_none_iff_exists'.mp hsome
          rw [hj]
          rw [if_neg (show ¬ (line = [10] ∨ line.headD 0 = 32 ∨ ¬ 32 ∈ line) by
            simp [h1, h2g, h3])]
          simp only
          by_cases hv : is_valid_action (scanToken line) = true
          · have hvs : (line.dropWhile isWhite).takeWhile (fun b => !isWhite b)
                ∈ [upB, lowB, revB, shufB, randB] := by
              rcases (is_valid_action_iff _).mp hv with h | h | h | h | h <;>
                rw [show (line.dropWhile isWhite).takeWhile (fun b => !isWhite b)
                    = scanToken line from rfl, h] <;> simp
            rw [if_pos hv, if_pos hvs]
            rfl
          · have hvs : ¬ (line.dropWhile isWhite).takeWhile (fun b => !isWhite b)
                ∈ [upB, lowB, revB, shufB, randB] := by
              intro hmem
              apply hv
              rw [is_valid_action_iff]
              simpa using hmem
            rw [if_neg hv, if_neg hvs]
            exact hrest
        · have hnone : strchrSpace line = none := (strchrSpace_none_iff hline).mpr h3
          rw [hnone]
          rw [if_pos (show line = [10] ∨ line.headD 0 = 32 ∨ ¬ 32 ∈ line from
            Or.inr (Or.inr h3))]
          exact hrest

/-! ## Claim theorems -/

/-- C1 (counterexample): the split-read invariance claim is false as stated.
The single well-formed frame `"1 a"` (bytes 49 32 97), delivered one byte per
read, produces no handler call at all: after the first one-byte read the
buffer holds only `"1"`, which has no space, so the desync branch discards it
(resets the valid-byte count), and the same happens to the following bytes.
The claim requires the payload list `[[97]]`; the code delivers `[]`. -/
theorem C1_split_read_counterexample :
    (tcp_client_receive_response hFalse [some [49], some [32], some [97]]).1.outputs
        ≠ [[97]] ∧
    (tcp_client_receive_response hFalse [some [49], some [32], some [97]]).1.outputs
        = [] ∧
    [49, 32, 97] = frameOf [97] := by
  refine ⟨by decide, by decide, by decide⟩

/-- C1 (amended): frame-aligned delivery.  When every read delivers exactly
one complete canonically encoded frame, each frame is NUL-free in its payload
and at most 512 bytes long (half the initial buffer), and the handler never
signals completion, tcp_client_receive_response passes exactly the payloads
to the handler, in order, and returns success.  Arbitrary re-chunkings of
the same byte stream are not supported (see the counterexample). -/
theorem C1_frame_aligned_delivery (h : List Nat → Bool) (ps : List (List Nat))
    (hps : ∀ p ∈ ps, (∀ b ∈ p, b ≠ 0) ∧ (frameOf p).length ≤ 512 ∧ h p = false) :
    tcp_client_receive_response h (ps.map (fun p => some (frameOf p)))
      = ({ recvInit with outputs := ps }, RecvResult.success) := by
  unfold tcp_client_receive_response
  have hmain := receive_frames h ps [] hps
  rw [show ({ recvInit with outputs := ([] : List (List Nat)) } : RecvState)
      = recvInit from rfl] at hmain
  rw [List.nil_append] at hmain
  exact hmain

/-- C1 (witness): a single frame `"1 a"` delivered in one read yields
exactly the payload `"a"`. -/
theorem C1_frame_aligned_delivery_witness :
    tcp_client_receive_response hFalse [some (frameOf [97])]
      = ({ recvInit with outputs := [[97]] }, RecvResult.success) := by
  have hmain := C1_frame_aligned_delivery hFalse [[97]]
    (fun p hp => by
      simp only [List.mem_singleton] at hp
      subst hp
      exact ⟨by decide, by decide, rfl⟩)
  simpa using hmain

/-- C2: the code violates the claim (code bug).  With the buffer holding
exactly the four bytes `"3 ab"` (declared length 3, only 2 payload bytes
present), tcp_client_receive_response invokes the handler immediately with
the 2-byte message `"ab"`: line 282 compares total_bytes_received (4, which
counts the length prefix and space) against message_length (3) instead of
counting the payload bytes present (2).  The claim — and the spec scenario —
require the reassembler to wait for the third payload byte. -/
theorem C2_short_message_bug :
    (tcp_client_receive_response hFalse [some [51, 32, 97, 98]]).1.outputs
        = [[97, 98]] ∧
    (tcp_client_receive_response hFalse [some [51, 32, 97, 98]]).1.outputs
        ≠ [] := by
  refine ⟨by decide, by decide⟩

/-- C3: the code violates the claim (code bug).  Line 206 passes `request`
(not `request + total_bytes_sent`) to every send call, so after a partial
write the loop re-sends from the start of the request.  For action `"a"`,
message `"b"` (request `"a 1 b"`) and a first write that accepts 1 byte, the
transmitted stream is `"a" ++ "a 1 "` = `"aa 1 "`: the first byte is
repeated and the final byte `'b'` is never transmitted, contradicting the
claim that the stream equals the encoded frame exactly once. -/
theorem C3_resend_from_start_bug :
    (tcp_client_send_request [97] [98] [some 1]).1 = [97, 97, 32, 49, 32] ∧
    (tcp_client_send_request [97] [98] [some 1]).1 ≠ reqOf [97] [98] ∧
    reqOf [97] [98] = [97, 32, 49, 32, 98] := by
  refine ⟨by decide, by decide, by decide⟩

/-- C4 (counterexample): decode(encode(A, M)) does not yield (A, M).  The
encoder emits `"<action> <len> <message>"`, but the response decoder requires
the frame to begin with a decimal digit; `"uppercase 5 hello"` begins with
`'u'`, so the reassembler discards it and decodes nothing at all — in
particular not the pair ("uppercase", "hello"). -/
theorem C4_request_not_decodable :
    decode (reqOf upB [104, 101, 108, 108, 111]) = [] ∧
    decode (reqOf upB [104, 101, 108, 108, 111]) ≠ [[104, 101, 108, 108, 111]] := by
  refine ⟨by decide, by decide⟩

/-- C4 (amended): the round trip holds for the length-prefixed message
portion only: for every NUL-free message M whose frame `"<len(M)> <M>"` fits
in half the initial buffer, feeding that frame to the reassembler yields
exactly M (embedded spaces and the empty message included).  The action word
of a request frame is never recoverable by the decoder. -/
theorem C4_payload_roundtrip (M : List Nat) (h0 : ∀ b ∈ M, b ≠ 0)
    (hlen : (frameOf M).length ≤ 512) :
    decode (frameOf M) = [M] := by
  unfold decode tcp_client_receive_response
  have hmain := receive_frames hFalse [M] []
    (fun p hp => by
      simp only [List.mem_singleton] at hp
      subst hp
      exact ⟨h0, hlen, rfl⟩)
  rw [show ({ recvInit with outputs := ([] : List (List Nat)) } : RecvState)
      = recvInit from rfl] at hmain
  simp only [List.map_cons, List.map_nil, List.nil_append] at hmain
  rw [hmain]

/-- C4 (witness): the frame `"5 HELLO"` decodes to `"HELLO"` (with embedded
content arbitrary bytes). -/
theorem C4_payload_roundtrip_witness :
    decode (frameOf [72, 69, 76, 76, 79]) = [[72, 69, 76, 76, 79]] :=
  C4_payload_roundtrip [72, 69, 76, 76, 79] (by decide) (by decide)

/-- C5 (counterexample): a send error is not reported to the caller as the
function's failure return value.  When the first write errors, the code
calls exit(EXIT_FAILURE) (line 210): the outcome is a process exit with
status 1, which is distinct from returning any value (in particular the
documented failure value 1) to the caller. -/
theorem C5_error_exits_not_returns :
    (tcp_client_send_request [97] [98] [none]).2 = SendResult.exited 1 ∧
    ∀ v : Nat, SendResult.exited 1 ≠ SendResult.returned v := by
  exact ⟨by decide, fun v h => SendResult.noConfusion h⟩

/-- C5 (amended): on a write error tcp_client_send_request aborts the whole
process with failure status instead of returning; otherwise it returns
success (0).  No partial-success value is ever exposed: the outcome is
always either `returned 0` or `exited 1`, and when no write errors occur it
is `returned 0`. -/
theorem C5_no_partial_success (action message : List Nat)
    (sched : List (Option Nat)) :
    ((tcp_client_send_request action message sched).2 = SendResult.returned 0 ∨
      (tcp_client_send_request action message sched).2 = SendResult.exited 1) ∧
    ((∀ e ∈ sched, e ≠ none) →
      (tcp_client_send_request action message sched).2 = SendResult.returned 0) :=
  sendLoop_outcomes (reqOf action message) sched 0

/-- C5 (witness): an error-free schedule of two partial writes returns
success. -/
theorem C5_no_partial_success_witness :
    (tcp_client_send_request [97] [98] [some 2, some 9]).2
      = SendResult.returned 0 :=
  (C5_no_partial_success [97] [98] [some 2, some 9]).2 (by decide)

/-- C6: confirmed.  From any receive-loop state, a zero-byte read (an empty
delivery, or an exhausted read schedule — the peer closed the connection)
makes tcp_client_receive_response stop its loop and return success, never a
failure, leaving whatever outputs were already delivered unchanged; in
particular receiving on an immediately-closed connection returns success. -/
theorem C6_zero_read_success :
    ∀ (h : List Nat → Bool) (st : RecvState) (rest : List (Option (List Nat))),
      outerLoop h (some [] :: rest) st = (st, RecvResult.success) ∧
      outerLoop h [] st = (st, RecvResult.success) ∧
      (tcp_client_receive_response h []).2 = RecvResult.success := by
  intro h st rest
  refine ⟨?_, outerLoop_nil h st, ?_⟩
  · rw [outerLoop.eq_def]
    by_cases hd : st.allDone = true
    · simp [hd]
    · simp [hd]
  · unfold tcp_client_receive_response
    rw [outerLoop_nil]

/-- C7 (counterexample): the reset test is not about the valid region.  After
the reads `"x 5ab"` (discarded by desync recovery, but left in the buffer)
and `"7"`, the loop state is reachable in which the valid region is the
single byte `"7"` — a digit, and no space anywhere in the valid region — yet
the valid-byte count is left at 1, not reset to 0: strchr found the stale
space at offset 1 beyond the valid region, so the code parsed `"7"` as a
length prefix and kept waiting for more data. -/
theorem C7_valid_region_counterexample :
    validRegionHasNoSpace
        (tcp_client_receive_response hFalse [some [120, 32, 53, 97, 98], some [55]]).1 ∧
    isDigitByte
        (((tcp_client_receive_response hFalse
            [some [120, 32, 53, 97, 98], some [55]]).1.buffer).headD 0) = true ∧
    (tcp_client_receive_response hFalse [some [120, 32, 53, 97, 98], some [55]]).1.total
        = 1 := by
  refine ⟨by decide, by decide, by decide⟩

/-- C7 (amended): the test is on the NUL-terminated buffer content, not the
valid region: whenever strchr finds no space before the first NUL in the
buffer, or the buffer's first byte is not a decimal digit, the inner decode
loop resets the valid-byte count to 0 and leaves everything else unchanged
(no error is reported; the outer loop goes on reading). -/
theorem C7_nul_terminated_reset (h : List Nat → Bool) (fuel : Nat)
    (st : RecvState)
    (hcond : strchrSpace st.buffer = none ∨
      isDigitByte (st.buffer.headD 0) = false) :
    innerLoop h (fuel + 1) st = { st with total := 0 } :=
  innerLoop_reset h fuel st hcond

/-- C7 (witness): a buffer holding `"abc"` (no space before the first NUL)
gets its valid-byte count reset from 3 to 0. -/
theorem C7_nul_terminated_reset_witness :
    innerLoop hFalse 1
        { buffer := [97, 98, 99], bufSize := 1024, total := 3,
          outputs := [], allDone := false }
      = { buffer := [97, 98, 99], bufSize := 1024, total := 0,
          outputs := [], allDone := false } := by
  rw [C7_nul_terminated_reset hFalse 0
    { buffer := [97, 98, 99], bufSize := 1024, total := 3,
      outputs := [], allDone := false }
    (Or.inl (by decide))]

/-- C8: confirmed.  (1) Throughout any execution of the receive loop, from
any state, the buffer capacity never shrinks.  (2) Whenever the declared
length exceeds the space remaining in the buffer after the length prefix
and separating space (`message_length > buffer_size - prefix_len - 1`), the
inner loop doubles the capacity exactly, preserves the existing buffered
bytes (the realloc keeps the old contents and appends fresh space), leaves
the valid-byte count and outputs untouched, and breaks back to read more
data. -/
theorem C8_buffer_growth :
    (∀ (h : List Nat → Bool) (reads : List (Option (List Nat))) (st : RecvState),
        st.bufSize ≤ ((outerLoop h reads st).1).bufSize) ∧
    (∀ (h : List Nat → Bool) (fuel : Nat) (st : RecvState) (i : Nat),
        strchrSpace st.buffer = some i →
        isDigitByte (st.buffer.headD 0) = true →
        ((atoiNat (st.buffer.take i) : Int) > (st.bufSize : Int) - (i : Int) - 1) →
        innerLoop h (fuel + 1) st
          = { st with bufSize := 2 * st.bufSize
                      buffer := st.buffer ++ List.replicate st.bufSize 0 }) :=
  ⟨fun h reads st => outerLoop_bufSize_mono h reads st,
   fun h fuel st i h1 h2 h3 => innerLoop_doubles h fuel st i h1 h2 h3⟩

/-- C8 (witness): a 4-byte buffer holding `"99 "` (declared length 99) is
doubled to 8 bytes with its contents preserved. -/
theorem C8_buffer_growth_witness :
    innerLoop hFalse 1
        { buffer := [57, 57, 32], bufSize := 4, total := 3,
          outputs := [], allDone := false }
      = { buffer := [57, 57, 32, 0, 0, 0, 0], bufSize := 8, total := 3,
          outputs := [], allDone := false } := by
  rw [C8_buffer_growth.2 hFalse 0
    { buffer := [57, 57, 32], bufSize := 4, total := 3,
      outputs := [], allDone := false }
    2 (by decide) (by decide) (by decide)]
  decide

/-- C9 (counterexample): the message does not run from after the first space.
For the line `"uppercase  hi\n"` (two spaces) the claim requires the message
`" hi"` (everything after the first space, newline excluded), but
tcp_client_get_line returns the message `"hi"`: sscanf's `%s %[^\n]` skips
the whole whitespace run after the action token. -/
theorem C9_multi_space_counterexample :
    tcp_client_get_line
        [[117, 112, 112, 101, 114, 99, 97, 115, 101, 32, 32, 104, 105, 10]]
      = some ([117, 112, 112, 101, 114, 99, 97, 115, 101], [104, 105]) ∧
    ([104, 105] : List Nat) ≠ [32, 104, 105] := by
  refine ⟨by decide, by decide⟩

/-- C9 (amended): on NUL-free input lines, tcp_client_get_line behaves
exactly as the corrected description: it skips lines that are empty, begin
with a space, contain no space, or whose first whitespace-delimited token is
not one of the five actions, and returns (token, message) for the first
passing line, where the message is the remainder after the whitespace run
following the token, up to and excluding the newline. -/
theorem C9_whitespace_split (lines : List (List Nat))
    (h0 : ∀ l ∈ lines, ∀ b ∈ l, b ≠ 0) :
    tcp_client_get_line lines = get_line_spec lines :=
  get_line_eq_spec lines h0

/-- C9 (witness): the line `"random hi\n"` is read identically by the code
model and the amended description. -/
theorem C9_whitespace_split_witness :
    tcp_client_get_line [[114, 97, 110, 100, 111, 109, 32, 104, 105, 10]]
      = get_line_spec [[114, 97, 110, 100, 111, 109, 32, 104, 105, 10]] :=
  C9_whitespace_split _ (by decide)

/-- C10: confirmed.  is_valid_action returns true exactly on the five
lowercase literals "uppercase", "lowercase", "reverse", "shuffle", "random";
the comparison is case-sensitive — `"UPPERCASE"` is rejected, and a script
consisting of the line `"UPPERCASE hi"` is exhausted without producing any
(action, message) pair (the line is skipped). -/
theorem C10_action_validation :
    (∀ a : List Nat, is_valid_action a = true ↔
      (a = upB ∨ a = lowB ∨ a = revB ∨ a = shufB ∨ a = randB)) ∧
    is_valid_action [85, 80, 80, 69, 82, 67, 65, 83, 69] = false ∧
    tcp_client_get_line [[85, 80, 80, 69, 82, 67, 65, 83, 69, 32, 104, 105, 10]]
      = none := by
  refine ⟨is_valid_action_iff, by decide, by decide⟩

/-- C10 (witness): "reverse" is accepted. -/
theorem C10_action_validation_witness :
    is_valid_action [114, 101, 118, 101, 114, 115, 101] = true :=
  (C10_action_validation.1 [114, 101, 118, 101, 114, 115, 101]).mpr
    (Or.inr (Or.inr (Or.inl (by decide))))
